import Mathlib

/-!
Verification of the FlavorGraphAI core (`src/flavorgraph_ai.py`): the
ingredient co-occurrence graph builder (`build_graph` with its inner
`add_recipe_to_graph`) and the neighbor scorer (`suggest_neighbors_scored`).

Modelling conventions:
* Python floats are modelled as rationals (`ℚ`); the arithmetic used by the
  code (sums, division, comparison, multiplication) is exact on the inputs
  the claims are about.
* Python dicts are modelled as insertion-ordered association lists: an
  existing key keeps its position when updated, a new key is appended at
  the end.  `dict.pop` is removal of the key.  The networkx graph stores a
  node dict and an edge dict; the adjacency view `G[x]` iterates the edges
  incident to `x` in edge-insertion order, which is how `neighborsOf`
  reads the edge list.
* `list(set(...))` (recipe-internal deduplication) has an arbitrary order
  in Python; we model it with `List.dedup`.  No claim below depends on the
  order of this deduplication.
* A recipe record carries an ingredient list (raw strings, as produced by
  the excluded list-syntax parser), and optional rating / calories, where
  `none` stands for a missing value or one whose `float(...)` conversion
  fails (the code silently ignores that field in either case).
-/

/-- Per-node data of the graph: `count`, `rating_sum`, `cal_sum` are
maintained during aggregation; `avg_rating` and `avg_calories` are filled
in by the finalization pass of `build_graph` (0 before that, matching
`node.get("avg_rating", 0.0)` reads on an unfinalized node). -/
structure NodeData where
  count : ℕ
  rating_sum : ℚ
  cal_sum : ℚ
  avg_rating : ℚ
  avg_calories : ℚ
  deriving Repr, DecidableEq

/-- Per-edge data of the graph. -/
structure EdgeData where
  cooc : ℕ
  rating_sum : ℚ
  cal_sum : ℚ
  deriving Repr, DecidableEq

/-- The ingredient co-occurrence graph: node dict and edge dict in
insertion order.  An undirected networkx edge is stored once, under the
unordered pair of its endpoints (lookup tries both orientations). -/
structure Graph where
  nodes : List (String × NodeData)
  edges : List ((String × String) × EdgeData)
  deriving Repr, DecidableEq

def Graph.empty : Graph := ⟨[], []⟩

/-- A recipe record as consumed by `build_graph`'s loop: the raw ingredient
strings plus optional rating and calories. -/
structure Recipe where
  ingredients : List String
  rating : Option ℚ
  calories : Option ℚ

/-- Python's `str.strip()`: drop whitespace from both ends (character-list
implementation so the kernel can evaluate it). -/
def pyStrip (s : String) : String :=
  ⟨((s.data.dropWhile Char.isWhitespace).reverse.dropWhile Char.isWhitespace).reverse⟩

/-- Python's `str.lower()` on the ingredient-name alphabet: lower-case every
character (character-list implementation so the kernel can evaluate it). -/
def pyLower (s : String) : String := ⟨s.data.map Char.toLower⟩

/-- `normalize_ing`: trim and lower-case an ingredient name
(`name.strip().lower()`). -/
def normalize_ing (name : String) : String := pyLower (pyStrip name)

/-- `get_ingredients`: keep nonempty raw strings and normalize them. -/
def get_ingredients (parts : List String) : List String :=
  (parts.filter (fun p => ¬ p = "")).map normalize_ing

/-- One node update of `add_recipe_to_graph`: ensure the node exists
(zero-initialised), then increment `count` and add the optional rating /
calories to the running sums. -/
def bumpNode (rating calories : Option ℚ) :
    List (String × NodeData) → String → List (String × NodeData)
  | [], ing =>
    [(ing, { count := 1, rating_sum := rating.getD 0, cal_sum := calories.getD 0,
             avg_rating := 0, avg_calories := 0 })]
  | (k, d) :: rest, ing =>
    if k = ing then
      (k, { d with count := d.count + 1,
                   rating_sum := d.rating_sum + rating.getD 0,
                   cal_sum := d.cal_sum + calories.getD 0 }) :: rest
    else
      (k, d) :: bumpNode rating calories rest ing

/-- Unordered-pair equality used by `G.has_edge(a, b)` lookups. -/
def eqPair (p : String × String) (a b : String) : Prop :=
  (p.1 = a ∧ p.2 = b) ∨ (p.1 = b ∧ p.2 = a)

instance (p : String × String) (a b : String) : Decidable (eqPair p a b) := by
  unfold eqPair; infer_instance

/-- One edge update of `add_recipe_to_graph`: ensure the edge exists
(`cooc = 1` on creation, else `cooc += 1`), then add the optional rating /
calories to the running sums. -/
def bumpEdge (rating calories : Option ℚ) :
    List ((String × String) × EdgeData) → String → String →
    List ((String × String) × EdgeData)
  | [], a, b =>
    [((a, b), { cooc := 1, rating_sum := rating.getD 0, cal_sum := calories.getD 0 })]
  | (p, e) :: rest, a, b =>
    if eqPair p a b then
      (p, { cooc := e.cooc + 1,
            rating_sum := e.rating_sum + rating.getD 0,
            cal_sum := e.cal_sum + calories.getD 0 }) :: rest
    else
      (p, e) :: bumpEdge rating calories rest a b

/-- `itertools.combinations(l, 2)`: all position-ordered pairs. -/
def pairs : List String → List (String × String)
  | [] => []
  | x :: xs => xs.map (fun y => (x, y)) ++ pairs xs

/-- `add_recipe_to_graph`: deduplicate the recipe's ingredients, skip the
recipe if fewer than two distinct ingredients remain, otherwise update
every node and every unordered pair's edge. -/
def add_recipe_to_graph (G : Graph) (ingredients : List String)
    (rating calories : Option ℚ) : Graph :=
  let unique_ings := ingredients.dedup
  if unique_ings.length < 2 then G
  else
    { nodes := unique_ings.foldl (bumpNode rating calories) G.nodes,
      edges := (pairs unique_ings).foldl
        (fun es p => bumpEdge rating calories es p.1 p.2) G.edges }

/-- One iteration of `build_graph`'s loop body: extract the normalized
ingredients, skip the row if fewer than two remain, else add the recipe. -/
def consumeRecipe (G : Graph) (r : Recipe) : Graph :=
  let ings := get_ingredients r.ingredients
  if ings.length < 2 then G
  else add_recipe_to_graph G ings r.rating r.calories

/-- The aggregation pass of `build_graph` over an already-capped list. -/
def aggregate (rs : List Recipe) : Graph :=
  rs.foldl consumeRecipe Graph.empty

/-- The finalization of one node: `avg_rating = rating_sum / count` if
`rating_sum` is truthy (nonzero), else `0.0`; analogously for calories;
both `0.0` when `count = 0`. -/
def finalizeNode (d : NodeData) : NodeData :=
  if 0 < d.count then
    { d with avg_rating := if d.rating_sum = 0 then 0 else d.rating_sum / d.count,
             avg_calories := if d.cal_sum = 0 then 0 else d.cal_sum / d.count }
  else
    { d with avg_rating := 0, avg_calories := 0 }

/-- The finalization pass of `build_graph`. -/
def finalize (G : Graph) : Graph :=
  { G with nodes := G.nodes.map (fun p => (p.1, finalizeNode p.2)) }

/-- `build_graph`: consume at most `max_recipes` records from the front of
the stream, aggregate, then finalize averages. -/
def build_graph (rs : List Recipe) (max_recipes : ℕ) : Graph :=
  finalize (aggregate (rs.take max_recipes))

/-- Keys of an association list, in order. -/
def keysOf {α : Type} (S : List (String × α)) : List String := S.map Prod.fst

/-- First-occurrence lookup in the node dict. -/
def lookupNode : List (String × NodeData) → String → Option NodeData
  | [], _ => none
  | (k, d) :: rest, x => if k = x then some d else lookupNode rest x

/-- Read of `G.nodes[n].get("avg_rating", 0.0)`. -/
def nodeAvgRating (G : Graph) (n : String) : ℚ :=
  ((lookupNode G.nodes n).map NodeData.avg_rating).getD 0

/-- Read of `G.nodes[n].get("avg_calories", 0.0)`. -/
def nodeAvgCalories (G : Graph) (n : String) : ℚ :=
  ((lookupNode G.nodes n).map NodeData.avg_calories).getD 0

/-- Read of `G.nodes[n]["count"]`, 0 when the node does not exist. -/
def nodeCount (G : Graph) (n : String) : ℕ :=
  ((lookupNode G.nodes n).map NodeData.count).getD 0

/-- The `count` field read off a node dict, 0 when the node is absent. -/
def countInNodes (ns : List (String × NodeData)) (ing : String) : ℕ :=
  ((lookupNode ns ing).map NodeData.count).getD 0

/-- Unordered edge lookup `G[a][b]`. -/
def lookupEdge : List ((String × String) × EdgeData) → String → String → Option EdgeData
  | [], _, _ => none
  | (p, e) :: rest, a, b => if eqPair p a b then some e else lookupEdge rest a b

/-- The adjacency view `G[x].items()`: the edges incident to `x`, paired
with the opposite endpoint, in edge-insertion order (networkx inserts into
the adjacency dict of `x` when the incident edge is first added). -/
def neighborsOf (G : Graph) (x : String) : List (String × EdgeData) :=
  G.edges.filterMap (fun pe =>
    if pe.1.1 = x then some (pe.1.2, pe.2)
    else if pe.1.2 = x then some (pe.1.1, pe.2)
    else none)

/-- The per-neighbor contribution of `suggest_neighbors_scored` for one
base ingredient: `cooc` for `default` and any unknown goal, boosted by the
neighbor's average rating for `high_rating`, boosted towards low average
calories for `healthy`. -/
def goalScore (goal : String) (cooc : ℕ) (rating cal : ℚ) : ℚ :=
  if goal = "high_rating" then (cooc : ℚ) * (1 + rating / 5)
  else if goal = "healthy" then (cooc : ℚ) * (1 + 1 / (1 + cal / 200))
  else (cooc : ℚ)

/-- Whether `x in G` holds (node membership). -/
def hasNode (G : Graph) (x : String) : Prop := x ∈ keysOf G.nodes

instance (G : Graph) (x : String) : Decidable (hasNode G x) := by
  unfold hasNode; infer_instance

/-- The contributions one base ingredient adds to the score dict: nothing
when the ingredient is not a node, else one entry per incident edge whose
`cooc` passes `min_cooc`. -/
def contribList (G : Graph) (goal : String) (min_cooc : ℤ) (x : String) :
    List (String × ℚ) :=
  if hasNode G x then
    (neighborsOf G x).filterMap (fun ne =>
      if (ne.2.cooc : ℤ) < min_cooc then none
      else some (ne.1, goalScore goal ne.2.cooc (nodeAvgRating G ne.1) (nodeAvgCalories G ne.1)))
  else []

/-- `scores[neigh] = scores.get(neigh, 0.0) + score`: update the first
occurrence in place, or append a fresh key at the end. -/
def addScore : List (String × ℚ) → String → ℚ → List (String × ℚ)
  | [], k, v => [(k, v)]
  | (k', v') :: rest, k, v =>
    if k' = k then (k', v' + v) :: rest else (k', v') :: addScore rest k v

/-- Fold a list of contributions into the score dict. -/
def accum (S : List (String × ℚ)) (Δ : List (String × ℚ)) : List (String × ℚ) :=
  Δ.foldl (fun T p => addScore T p.1 p.2) S

/-- The score-accumulation loop of `suggest_neighbors_scored` over the
normalized base ingredients. -/
def scoresFor (G : Graph) (baseNorm : List String) (goal : String)
    (min_cooc : ℤ) : List (String × ℚ) :=
  baseNorm.foldl (fun S x => accum S (contribList G goal min_cooc x)) []

/-- `scores.pop(b, None)` for every normalized base ingredient. -/
def popBase (baseNorm : List String) (S : List (String × ℚ)) : List (String × ℚ) :=
  baseNorm.foldl (fun T b => T.filter (fun p => ¬ p.1 = b)) S

/-- Stable insertion into a descending-by-score list: the inserted element
goes before the first strictly smaller score, after all earlier elements
with a score at least as large.  Folding it from the right reproduces
Python's stable `sorted(..., key=lambda x: -x[1])`. -/
def insertRanked (x : String × ℚ) : List (String × ℚ) → List (String × ℚ)
  | [] => [x]
  | y :: ys => if y.2 ≤ x.2 then x :: y :: ys else y :: insertRanked x ys

/-- Stable sort by score, descending. -/
def sortRanked (S : List (String × ℚ)) : List (String × ℚ) :=
  S.foldr insertRanked []

/-- Python list slicing `l[:k]` for a possibly negative `k`. -/
def pySlice {α : Type} (k : ℤ) (l : List α) : List α :=
  if 0 ≤ k then l.take k.toNat else l.take ((l.length : ℤ) + k).toNat

/-- `suggest_neighbors_scored`: normalize the base ingredients, accumulate
per-neighbor scores over all base ingredients, drop the base ingredients
themselves, sort by score descending (stable) and return the first `top_k`
ingredient names. -/
def suggest_neighbors_scored (G : Graph) (base_ings : List String)
    (goal : String) (top_k : ℤ) (min_cooc : ℤ) : List String :=
  let base_ings_norm := base_ings.map normalize_ing
  let scores := scoresFor G base_ings_norm goal min_cooc
  let scores := popBase base_ings_norm scores
  (pySlice top_k (sortRanked scores)).map Prod.fst

/-- The accumulated score of a candidate: `scores.get(c, 0.0)`. -/
def scoreOf : List (String × ℚ) → String → ℚ
  | [], _ => 0
  | p :: rest, c => if p.1 = c then p.2 else scoreOf rest c

/-- Total contribution a list of `(neighbor, score)` pairs carries for one
candidate. -/
def totalOf : List (String × ℚ) → String → ℚ
  | [], _ => 0
  | p :: rest, c => (if p.1 = c then p.2 else 0) + totalOf rest c

/-- Multiply every accumulated score by a constant, keeping keys and
order. -/
def scaleScores (c : ℚ) (S : List (String × ℚ)) : List (String × ℚ) :=
  S.map (fun p => (p.1, c * p.2))

/-- The part of the node dict `suggest_neighbors_scored` can observe: keys
(for membership) and the two average fields. -/
def nodeView (G : Graph) : List (String × (ℚ × ℚ)) :=
  G.nodes.map (fun p => (p.1, (p.2.avg_rating, p.2.avg_calories)))

/-- The part of the edge dict `suggest_neighbors_scored` can observe:
endpoint pairs (adjacency structure, in insertion order) and `cooc`. -/
def edgeView (G : Graph) : List ((String × String) × ℕ) :=
  G.edges.map (fun p => (p.1, p.2.cooc))

/-- Whether a recipe record, after normalization and in-recipe
deduplication, still has at least two distinct ingredients and contains
the given one — exactly the records whose processing increments that
ingredient's node `count`. -/
def recipeHits (ing : String) (r : Recipe) : Bool :=
  decide (2 ≤ (get_ingredients r.ingredients).dedup.length
    ∧ ing ∈ (get_ingredients r.ingredients).dedup)

/-- Number of records in a consumed list that contribute to an
ingredient's node `count`. -/
def hitCount (rs : List Recipe) (ing : String) : ℕ :=
  rs.countP (recipeHits ing)

/-- The three-recipe corpus of the spec's end-to-end scenario. -/
def scenarioRecipes : List Recipe :=
  [ { ingredients := ["chicken", "garlic", "lemon"], rating := some (9/2), calories := some 300 },
    { ingredients := ["chicken", "garlic"], rating := some 4, calories := some 250 },
    { ingredients := ["chicken", "rice"], rating := some 3, calories := some 500 } ]

/-- A one-node graph whose node carries `count = 4`, `rating_sum = 18`. -/
def avgScenarioGraph : Graph :=
  ⟨[("beans", { count := 4, rating_sum := 18, cal_sum := 100, avg_rating := 0, avg_calories := 0 })], []⟩

/-- Two graphs agreeing on adjacency, `cooc` and the average fields while
differing in `count`, `rating_sum` and `cal_sum` everywhere. -/
def viewGraphA : Graph :=
  ⟨[("a", { count := 1, rating_sum := 5, cal_sum := 5, avg_rating := 4, avg_calories := 100 }),
    ("b", { count := 1, rating_sum := 7, cal_sum := 9, avg_rating := 3, avg_calories := 200 })],
   [(("a", "b"), { cooc := 6, rating_sum := 11, cal_sum := 13 })]⟩

def viewGraphB : Graph :=
  ⟨[("a", { count := 2, rating_sum := 50, cal_sum := 55, avg_rating := 4, avg_calories := 100 }),
    ("b", { count := 9, rating_sum := 70, cal_sum := 90, avg_rating := 3, avg_calories := 200 })],
   [(("a", "b"), { cooc := 6, rating_sum := 999, cal_sum := 888 })]⟩

/-! ## Claim C1 (end-to-end scenario) -/

unseal Rat.add Rat.mul Rat.inv Rat.sub in
/-- Claim C1, counterexample: on the three-recipe corpus the scorer with
`base = ["chicken"]`, `goal = "default"`, `top_k = 2`, `min_cooc = 1`
returns `["garlic", "lemon"]` — "lemon" ties "rice" at score 1 and was
inserted into the score dict first (recipe 1 precedes recipe 3), and the
ranking sort is stable — so the claimed `["garlic", "rice"]` is wrong. -/
theorem claim1_counterexample :
    suggest_neighbors_scored (build_graph scenarioRecipes 3) ["chicken"] "default" 2 1
      = ["garlic", "lemon"]
    ∧ ¬ suggest_neighbors_scored (build_graph scenarioRecipes 3) ["chicken"] "default" 2 1
      = ["garlic", "rice"] := by
  decide

unseal Rat.add Rat.mul Rat.inv Rat.sub in
/-- Claim C1 as amended: on the three-recipe corpus built with
`max_recipes = 3` the graph has node "chicken" with `count = 3` and edge
("chicken", "garlic") with `cooc = 2` and `rating_sum = 8.5`, and scoring
with `base = ["chicken"]`, `goal = "default"`, `min_cooc = 1`, `top_k = 2`
returns exactly `["garlic", "lemon"]` in that order. -/
theorem claim1_amended :
    nodeCount (build_graph scenarioRecipes 3) "chicken" = 3
    ∧ (lookupEdge (build_graph scenarioRecipes 3).edges "chicken" "garlic").map EdgeData.cooc
      = some 2
    ∧ (lookupEdge (build_graph scenarioRecipes 3).edges "chicken" "garlic").map EdgeData.rating_sum
      = some (17 / 2)
    ∧ suggest_neighbors_scored (build_graph scenarioRecipes 3) ["chicken"] "default" 2 1
      = ["garlic", "lemon"] := by
  decide

/-! ## Claim C2 (result length is bounded by top_k) -/

unseal Rat.add Rat.mul Rat.inv Rat.sub in
/-- Claim C2, counterexample: with a negative `top_k` the Python slice
`ranked[:top_k]` drops elements from the end instead of truncating to at
most `top_k`, so the returned list (here of length 2) is longer than
`top_k = -1`. -/
theorem claim2_counterexample :
    suggest_neighbors_scored (build_graph scenarioRecipes 3) ["chicken"] "default" (-1) 1
      = ["garlic", "lemon"]
    ∧ ¬ (((suggest_neighbors_scored (build_graph scenarioRecipes 3) ["chicken"] "default" (-1) 1).length : ℤ)
      ≤ -1) := by
  decide

/-- Claim C2 as amended: for every graph, base-ingredient list, goal,
nonnegative `top_k`, and `min_cooc`, the list returned by
`suggest_neighbors_scored` has length at most `top_k`. -/
theorem claim2_amended (G : Graph) (base : List String) (goal : String)
    (top_k min_cooc : ℤ) (hk : 0 ≤ top_k) :
    ((suggest_neighbors_scored G base goal top_k min_cooc).length : ℤ) ≤ top_k := by
  have h1 : (suggest_neighbors_scored G base goal top_k min_cooc).length
      = (pySlice top_k (sortRanked (popBase (base.map normalize_ing)
          (scoresFor G (base.map normalize_ing) goal min_cooc)))).length := by
    simp [suggest_neighbors_scored]
  rw [h1]
  unfold pySlice
  rw [if_pos hk]
  have h2 : ((sortRanked (popBase (base.map normalize_ing)
      (scoresFor G (base.map normalize_ing) goal min_cooc))).take top_k.toNat).length
      ≤ top_k.toNat := by
    rw [List.length_take]
    exact Nat.min_le_left _ _
  calc (((sortRanked (popBase (base.map normalize_ing)
          (scoresFor G (base.map normalize_ing) goal min_cooc))).take top_k.toNat).length : ℤ)
      ≤ (top_k.toNat : ℤ) := by exact_mod_cast h2
    _ = top_k := Int.toNat_of_nonneg hk

unseal Rat.add Rat.mul Rat.inv Rat.sub in
/-- Witness for the amended claim C2 at a concrete input. -/
theorem claim2_witness :
    ((suggest_neighbors_scored (build_graph scenarioRecipes 3) ["chicken"] "default" 2 1).length : ℤ)
      ≤ 2 :=
  claim2_amended (build_graph scenarioRecipes 3) ["chicken"] "default" 2 1 (by decide)

/-! ## Claim C3 (goal monotonicity of the per-base contribution) -/

/-- Claim C3: for two neighbors of the same base ingredient whose edges
have equal `cooc` (at least `min_cooc`), under `goal = "high_rating"` the
neighbor with the higher `avg_rating` receives a per-base contribution at
least as large; under `goal = "healthy"` the neighbor with the lower
(nonnegative) `avg_calories` receives a per-base contribution at least as
large. -/
theorem claim3_goal_monotonicity (min_cooc : ℤ) (cooc : ℕ)
    (_hc : min_cooc ≤ (cooc : ℤ)) (r₁ r₂ cal₁ cal₂ : ℚ) :
    (r₂ ≤ r₁ →
      goalScore "high_rating" cooc r₂ cal₁ ≤ goalScore "high_rating" cooc r₁ cal₁)
    ∧ (0 ≤ cal₁ → cal₁ ≤ cal₂ →
      goalScore "healthy" cooc r₁ cal₂ ≤ goalScore "healthy" cooc r₁ cal₁) := by
  constructor
  · intro hr
    simp only [goalScore, if_pos]
    have hnn : (0 : ℚ) ≤ (cooc : ℚ) := Nat.cast_nonneg cooc
    have hdiv : r₂ / 5 ≤ r₁ / 5 := by linarith
    have hsum : 1 + r₂ / 5 ≤ 1 + r₁ / 5 := by linarith
    exact mul_le_mul_of_nonneg_left hsum hnn
  · intro h0 hle
    have hne : ¬ ("healthy" = "high_rating") := by decide
    simp only [goalScore, if_neg hne, if_pos]
    have hnn : (0 : ℚ) ≤ (cooc : ℚ) := Nat.cast_nonneg cooc
    have hd1 : (0 : ℚ) ≤ cal₁ / 200 := by positivity
    have hpos : (0 : ℚ) < 1 + cal₁ / 200 := by linarith
    have hd2 : cal₁ / 200 ≤ cal₂ / 200 := by linarith
    have hmono : 1 + cal₁ / 200 ≤ 1 + cal₂ / 200 := by linarith
    have hinv : 1 / (1 + cal₂ / 200) ≤ 1 / (1 + cal₁ / 200) :=
      one_div_le_one_div_of_le hpos hmono
    have hsum : 1 + 1 / (1 + cal₂ / 200) ≤ 1 + 1 / (1 + cal₁ / 200) := by linarith
    exact mul_le_mul_of_nonneg_left hsum hnn

/-- Witness for claim C3 at concrete ratings and calorie averages. -/
theorem claim3_witness :
    goalScore "high_rating" 2 4 100 ≤ goalScore "high_rating" 2 (9 / 2) 100
    ∧ goalScore "healthy" 2 4 300 ≤ goalScore "healthy" 2 4 100 :=
  ⟨(claim3_goal_monotonicity 1 2 (by decide) (9 / 2) 4 100 300).1 (by norm_num),
   (claim3_goal_monotonicity 1 2 (by decide) 4 4 100 300).2 (by norm_num) (by norm_num)⟩

/-! ## Claim C5 (finalized averages) -/

theorem lookupNode_finalizeMap (ns : List (String × NodeData)) (k : String) :
    lookupNode (ns.map (fun p => (p.1, finalizeNode p.2))) k
      = (lookupNode ns k).map finalizeNode := by
  induction ns with
  | nil => rfl
  | cons p rest ih =>
    by_cases h : p.1 = k
    · simp [lookupNode, h]
    · simp [lookupNode, h, ih]

/-- Claim C5: at finalization every node's `avg_rating` equals
`rating_sum / count` when `rating_sum` is nonzero and `0` when it is
exactly zero, and `avg_calories` is computed analogously from `cal_sum`. -/
theorem claim5_finalize_averages (G : Graph) (k : String) (d : NodeData)
    (h : lookupNode G.nodes k = some d) (hc : 0 < d.count) :
    (¬ d.rating_sum = 0 → nodeAvgRating (finalize G) k = d.rating_sum / (d.count : ℚ))
    ∧ (d.rating_sum = 0 → nodeAvgRating (finalize G) k = 0)
    ∧ (¬ d.cal_sum = 0 → nodeAvgCalories (finalize G) k = d.cal_sum / (d.count : ℚ))
    ∧ (d.cal_sum = 0 → nodeAvgCalories (finalize G) k = 0) := by
  unfold nodeAvgRating nodeAvgCalories finalize
  simp only [lookupNode_finalizeMap, h, Option.map_map, Option.map_some]
  refine ⟨?_, ?_, ?_, ?_⟩ <;> intro h1 <;>
    simp [Function.comp, finalizeNode, hc, h1]

/-- Witness for claim C5: a node with `count = 4` and `rating_sum = 18`
gets `avg_rating = 4.5`. -/
theorem claim5_witness : nodeAvgRating (finalize avgScenarioGraph) "beans" = 9 / 2 := by
  have h := (claim5_finalize_averages avgScenarioGraph "beans"
      { count := 4, rating_sum := 18, cal_sum := 100, avg_rating := 0, avg_calories := 0 }
      (by decide) (by decide)).1 (by norm_num)
  rw [h]
  norm_num

/-! ## Claim C6 (skip rule for underpopulated recipes) -/

/-- Claim C6: a recipe record with fewer than two distinct ingredients
after normalization and deduplication leaves the graph completely
unchanged, both through `add_recipe_to_graph` directly and through the
`build_graph` loop body. -/
theorem claim6_skip_rule (G : Graph) (r : Recipe)
    (h : (get_ingredients r.ingredients).dedup.length < 2) :
    consumeRecipe G r = G
    ∧ add_recipe_to_graph G (get_ingredients r.ingredients) r.rating r.calories = G := by
  have hadd : add_recipe_to_graph G (get_ingredients r.ingredients) r.rating r.calories = G := by
    unfold add_recipe_to_graph
    simp [h]
  refine ⟨?_, hadd⟩
  unfold consumeRecipe
  by_cases h2 : (get_ingredients r.ingredients).length < 2
  · simp [h2]
  · simp [h2, hadd]

/-- Witness for claim C6: processing the ingredient list
`["salt", "salt"]` leaves an already-built graph unchanged. -/
theorem claim6_witness :
    consumeRecipe (aggregate scenarioRecipes)
      { ingredients := ["salt", "salt"], rating := some 5, calories := some 100 }
      = aggregate scenarioRecipes :=
  (claim6_skip_rule (aggregate scenarioRecipes)
    { ingredients := ["salt", "salt"], rating := some 5, calories := some 100 }
    (by decide)).1

/-! ## Claim C4 (node counts track contributing recipes) -/

theorem countInNodes_mk (ns : List (String × NodeData))
    (es : List ((String × String) × EdgeData)) (ing : String) :
    nodeCount ⟨ns, es⟩ ing = countInNodes ns ing := rfl

theorem countInNodes_cons (k : String) (d : NodeData)
    (rest : List (String × NodeData)) (ing : String) :
    countInNodes ((k, d) :: rest) ing
      = if k = ing then d.count else countInNodes rest ing := by
  by_cases h : k = ing <;> simp [countInNodes, lookupNode, h]

theorem countInNodes_bumpNode (r c : Option ℚ) (ns : List (String × NodeData))
    (x ing : String) :
    countInNodes (bumpNode r c ns x) ing
      = countInNodes ns ing + (if x = ing then 1 else 0) := by
  induction ns with
  | nil =>
    by_cases h : x = ing <;>
      simp [bumpNode, countInNodes, lookupNode, h]
  | cons p rest ih =>
    obtain ⟨k, d⟩ := p
    by_cases hk : k = x
    · simp only [bumpNode, if_pos hk, countInNodes_cons]
      by_cases hi : k = ing
      · have hx : x = ing := hk.symm.trans hi
        simp [hi, hx]
      · have hx : ¬ x = ing := fun h => hi (hk.trans h)
        simp [hi, hx]
    · simp only [bumpNode, if_neg hk, countInNodes_cons]
      by_cases hi : k = ing
      · have hx : ¬ x = ing := fun h => hk (hi.trans h.symm)
        simp [hi, hx]
      · simp [hi, ih]

theorem countInNodes_foldl_bumpNode (r c : Option ℚ) (l : List String)
    (ns : List (String × NodeData)) (ing : String) :
    countInNodes (l.foldl (bumpNode r c) ns) ing
      = countInNodes ns ing + l.count ing := by
  induction l generalizing ns with
  | nil => simp
  | cons x l ih =>
    simp only [List.foldl_cons]
    rw [ih, countInNodes_bumpNode, List.count_cons]
    by_cases hx : x = ing
    · simp only [hx]
      simp
      omega
    · have hx2 : ¬ (x == ing) = true := by simp [hx]
      simp [hx, hx2]

theorem nodeCount_consumeRecipe (G : Graph) (r : Recipe) (ing : String) :
    nodeCount (consumeRecipe G r) ing
      = nodeCount G ing + (if recipeHits ing r then 1 else 0) := by
  by_cases h2 : (get_ingredients r.ingredients).dedup.length < 2
  · have hcons : consumeRecipe G r = G := by
      unfold consumeRecipe
      by_cases h1 : (get_ingredients r.ingredients).length < 2
      · simp [h1]
      · simp only [if_neg h1]
        unfold add_recipe_to_graph
        simp [h2]
    have hhit : recipeHits ing r = false := by
      simp only [recipeHits, decide_eq_false_iff_not]
      intro hcon
      omega
    rw [hcons, hhit]
    simp
  · have h1 : ¬ (get_ingredients r.ingredients).length < 2 := by
      have := (get_ingredients r.ingredients).dedup_sublist.length_le
      omega
    simp only [consumeRecipe, add_recipe_to_graph, if_neg h1, if_neg h2]
    rw [countInNodes_mk, countInNodes_foldl_bumpNode]
    rw [show nodeCount G ing = countInNodes G.nodes ing from rfl]
    by_cases hmem : ing ∈ (get_ingredients r.ingredients).dedup
    · rw [List.count_eq_one_of_mem (get_ingredients r.ingredients).nodup_dedup hmem]
      have hhit : recipeHits ing r = true := by
        simp only [recipeHits, decide_eq_true_eq]
        exact ⟨by omega, hmem⟩
      rw [hhit]
      simp
    · rw [List.count_eq_zero_of_not_mem hmem]
      have hhit : recipeHits ing r = false := by
        simp only [recipeHits, decide_eq_false_iff_not]
        exact fun hcon => hmem hcon.2
      rw [hhit]
      simp

theorem nodeCount_foldl_consume (rs : List Recipe) (G : Graph) (ing : String) :
    nodeCount (rs.foldl consumeRecipe G) ing = nodeCount G ing + hitCount rs ing := by
  induction rs generalizing G with
  | nil => simp [hitCount]
  | cons r rs ih =>
    simp only [List.foldl_cons]
    rw [ih, nodeCount_consumeRecipe]
    unfold hitCount
    rw [List.countP_cons]
    by_cases hr : recipeHits ing r
    · simp only [hr]
      simp
      omega
    · simp only [List.countP, hitCount]
      have hrf : recipeHits ing r = false := by
        revert hr
        cases recipeHits ing r <;> simp
      simp [hrf]

theorem nodeCount_aggregate (rs : List Recipe) (ing : String) :
    nodeCount (aggregate rs) ing = hitCount rs ing := by
  unfold aggregate
  rw [nodeCount_foldl_consume]
  simp [nodeCount, Graph.empty, lookupNode]

/-- Claim C4: at every point during aggregation (after any prefix `k` of
the capped recipe stream), every node's `count` equals the number of
consumed records that, after normalization and deduplication, contain the
ingredient together with at least one other distinct ingredient; hence no
count exceeds the number of recipes processed, and counts never
decrease. -/
theorem claim4_count_invariant (rs : List Recipe) (cap k : ℕ) (ing : String) :
    nodeCount (aggregate ((rs.take cap).take k)) ing = hitCount ((rs.take cap).take k) ing
    ∧ nodeCount (aggregate ((rs.take cap).take k)) ing ≤ ((rs.take cap).take k).length
    ∧ ∀ k', k ≤ k' →
      nodeCount (aggregate ((rs.take cap).take k)) ing
        ≤ nodeCount (aggregate ((rs.take cap).take k')) ing := by
  refine ⟨nodeCount_aggregate _ _, ?_, ?_⟩
  · rw [nodeCount_aggregate]
    exact List.countP_le_length _
  · intro k' hk
    rw [nodeCount_aggregate, nodeCount_aggregate]
    unfold hitCount
    have heq : ((rs.take cap).take k').take k = (rs.take cap).take k := by
      rw [List.take_take, Nat.min_eq_left hk]
    rw [← heq]
    exact List.Sublist.countP_le _ (List.take_sublist _ _)

/-- Witness for claim C4: on the scenario corpus, chicken's count after one
consumed recipe is at most its count after all three. -/
theorem claim4_witness :
    nodeCount (aggregate ((scenarioRecipes.take 3).take 1)) "chicken"
      ≤ nodeCount (aggregate ((scenarioRecipes.take 3).take 3)) "chicken" :=
  (claim4_count_invariant scenarioRecipes 3 1 "chicken").2.2 3 (by decide)

/-! ## Claim C7 (base ingredients never recommended) -/

theorem mem_insertRanked (x p : String × ℚ) (l : List (String × ℚ)) :
    p ∈ insertRanked x l → p = x ∨ p ∈ l := by
  induction l with
  | nil => simp [insertRanked]
  | cons y ys ih =>
    simp only [insertRanked]
    by_cases h : y.2 ≤ x.2
    · rw [if_pos h]
      intro hm
      simp only [List.mem_cons] at hm ⊢
      tauto
    · rw [if_neg h]
      intro hm
      simp only [List.mem_cons] at hm ⊢
      rcases hm with h1 | h2
      · tauto
      · rcases ih h2 with h3 | h4 <;> tauto

theorem mem_sortRanked (p : String × ℚ) (S : List (String × ℚ)) :
    p ∈ sortRanked S → p ∈ S := by
  induction S with
  | nil => simp [sortRanked]
  | cons x xs ih =>
    simp only [sortRanked, List.foldr_cons]
    intro hm
    rcases mem_insertRanked x p _ hm with h1 | h2
    · simp [h1]
    · exact List.mem_cons_of_mem _ (ih h2)

theorem mem_popBase (p : String × ℚ) (bs : List String) :
    ∀ S : List (String × ℚ), p ∈ popBase bs S → p ∈ S ∧ p.1 ∉ bs := by
  induction bs with
  | nil => simp [popBase]
  | cons b bs ih =>
    intro S hm
    have hstep : p ∈ popBase bs (S.filter (fun q => ¬ q.1 = b)) := hm
    obtain ⟨hf, hnb⟩ := ih _ hstep
    have hf2 := List.mem_filter.mp hf
    have hne : ¬ p.1 = b := by
      have := hf2.2
      simpa using this
    refine ⟨hf2.1, ?_⟩
    simp only [List.mem_cons]
    rintro (h | h)
    · exact hne h
    · exact hnb h

theorem pySlice_subset {α : Type} (k : ℤ) (l : List α) : pySlice k l ⊆ l := by
  unfold pySlice
  by_cases h : 0 ≤ k
  · rw [if_pos h]
    exact List.take_subset _ _
  · rw [if_neg h]
    exact List.take_subset _ _

/-- Claim C7: for every graph, base list, goal, `top_k` and `min_cooc`,
the scorer's result never contains any normalized base ingredient. -/
theorem claim7_base_exclusion (G : Graph) (base : List String) (goal : String)
    (top_k min_cooc : ℤ) (b : String) (hb : b ∈ base.map normalize_ing) :
    b ∉ suggest_neighbors_scored G base goal top_k min_cooc := by
  intro hmem
  simp only [suggest_neighbors_scored] at hmem
  rw [List.mem_map] at hmem
  obtain ⟨p, hp, hpb⟩ := hmem
  have hp2 : p ∈ sortRanked (popBase (base.map normalize_ing)
      (scoresFor G (base.map normalize_ing) goal min_cooc)) :=
    pySlice_subset top_k _ hp
  have hp3 := mem_sortRanked p _ hp2
  have hp4 := (mem_popBase p _ _ hp3).2
  exact hp4 (hpb ▸ hb)

/-- Witness for claim C7: "chicken" is not among the suggestions for base
`["chicken"]` on the scenario graph. -/
theorem claim7_witness :
    "chicken" ∉ suggest_neighbors_scored (build_graph scenarioRecipes 3) ["chicken"] "default" 2 1 :=
  claim7_base_exclusion (build_graph scenarioRecipes 3) ["chicken"] "default" 2 1 "chicken"
    (by decide)

/-! ## Claim C8 (unknown goal behaves as default) -/

theorem goalScore_unknown (goal : String) (h2 : ¬ goal = "high_rating")
    (h3 : ¬ goal = "healthy") (c : ℕ) (r cal : ℚ) :
    goalScore goal c r cal = goalScore "default" c r cal := by
  unfold goalScore
  rw [if_neg h2, if_neg h3,
    if_neg (by decide : ¬ ("default" : String) = "high_rating"),
    if_neg (by decide : ¬ ("default" : String) = "healthy")]

theorem foldl_fun_congr {α β : Type} (f g : β → α → β) (h : ∀ S x, f S x = g S x) :
    ∀ (l : List α) (S : β), l.foldl f S = l.foldl g S := by
  intro l
  induction l with
  | nil => intro S; rfl
  | cons x xs ih =>
    intro S
    simp only [List.foldl_cons, h, ih]

theorem contribList_unknown_goal (G : Graph) (goal : String) (m : ℤ) (x : String)
    (h2 : ¬ goal = "high_rating") (h3 : ¬ goal = "healthy") :
    contribList G goal m x = contribList G "default" m x := by
  unfold contribList
  by_cases hx : hasNode G x
  · rw [if_pos hx, if_pos hx]
    generalize neighborsOf G x = ns
    induction ns with
    | nil => rfl
    | cons ne rest ih =>
      simp only [List.filterMap_cons]
      by_cases hc : (ne.2.cooc : ℤ) < m
      · simp [hc, ih]
      · simp [hc, ih, goalScore_unknown goal h2 h3]
  · rw [if_neg hx, if_neg hx]

/-- Claim C8: for every graph, base list, `top_k` and `min_cooc`, and
every goal string outside `{default, high_rating, healthy}`, the scorer
returns exactly the list it returns for `goal = "default"`. -/
theorem claim8_unknown_goal (G : Graph) (base : List String) (top_k min_cooc : ℤ)
    (goal : String) (_h1 : ¬ goal = "default") (h2 : ¬ goal = "high_rating")
    (h3 : ¬ goal = "healthy") :
    suggest_neighbors_scored G base goal top_k min_cooc
      = suggest_neighbors_scored G base "default" top_k min_cooc := by
  simp only [suggest_neighbors_scored]
  have hs : scoresFor G (base.map normalize_ing) goal min_cooc
      = scoresFor G (base.map normalize_ing) "default" min_cooc := by
    unfold scoresFor
    exact foldl_fun_congr _ _
      (fun S x => by rw [contribList_unknown_goal G goal min_cooc x h2 h3]) _ _
  rw [hs]

/-- Witness for claim C8 at the concrete unknown goal "tasty". -/
theorem claim8_witness :
    suggest_neighbors_scored (build_graph scenarioRecipes 3) ["chicken"] "tasty" 2 1
      = suggest_neighbors_scored (build_graph scenarioRecipes 3) ["chicken"] "default" 2 1 :=
  claim8_unknown_goal (build_graph scenarioRecipes 3) ["chicken"] 2 1 "tasty"
    (by decide) (by decide) (by decide)

/-! ## Claim C9 (duplicated base ingredient doubles scores) -/

theorem keysOf_addScore (S : List (String × ℚ)) (k : String) (v : ℚ) :
    keysOf (addScore S k v)
      = if k ∈ keysOf S then keysOf S else keysOf S ++ [k] := by
  induction S with
  | nil => simp [addScore, keysOf]
  | cons p rest ih =>
    obtain ⟨k', v'⟩ := p
    by_cases h : k' = k
    · simp [addScore, h, keysOf]
    · have hkk : ¬ k = k' := fun he => h he.symm
      simp only [addScore, if_neg h, keysOf, List.map_cons] at *
      rw [ih]
      by_cases hm : k ∈ rest.map Prod.fst
      · simp [hm, hkk]
      · simp [hm, hkk]

theorem scoreOf_addScore (S : List (String × ℚ)) (k : String) (v : ℚ) (c : String) :
    scoreOf (addScore S k v) c = scoreOf S c + (if k = c then v else 0) := by
  induction S with
  | nil =>
    by_cases h : k = c
    · simp [addScore, scoreOf, h]
    · simp [addScore, scoreOf, h]
  | cons p rest ih =>
    obtain ⟨k', v'⟩ := p
    by_cases h : k' = k
    · simp only [addScore, if_pos h, scoreOf]
      by_cases hc : k' = c
      · have hkc : k = c := h.symm.trans hc
        rw [if_pos hc, if_pos hc, if_pos hkc]
      · have hkc : ¬ k = c := fun he => hc (h.trans he)
        rw [if_neg hc, if_neg hc, if_neg hkc]
        ring
    · simp only [addScore, if_neg h, scoreOf]
      by_cases hc : k' = c
      · have hkc : ¬ k = c := fun he => h ((hc.trans he.symm))
        rw [if_pos hc, if_pos hc, if_neg hkc]
        ring
      · rw [if_neg hc, if_neg hc, ih]

theorem scoreOf_accum (Δ : List (String × ℚ)) :
    ∀ (S : List (String × ℚ)) (c : String),
    scoreOf (accum S Δ) c = scoreOf S c + totalOf Δ c := by
  induction Δ with
  | nil =>
    intro S c
    simp [accum, totalOf]
  | cons p Δ ih =>
    intro S c
    simp only [accum, List.foldl_cons] at *
    rw [ih, scoreOf_addScore]
    simp only [totalOf]
    ring

theorem mem_keysOf_addScore_self (S : List (String × ℚ)) (k : String) (v : ℚ) :
    k ∈ keysOf (addScore S k v) := by
  rw [keysOf_addScore]
  by_cases h : k ∈ keysOf S
  · rw [if_pos h]
    exact h
  · rw [if_neg h]
    simp

theorem mem_keysOf_addScore_mono (S : List (String × ℚ)) (k : String) (v : ℚ)
    (c : String) (h : c ∈ keysOf S) : c ∈ keysOf (addScore S k v) := by
  rw [keysOf_addScore]
  by_cases h2 : k ∈ keysOf S
  · simpa [h2] using h
  · simp [h2, List.mem_append, h]

theorem mem_keysOf_accum_mono (Δ : List (String × ℚ)) :
    ∀ (S : List (String × ℚ)) (c : String), c ∈ keysOf S → c ∈ keysOf (accum S Δ) := by
  induction Δ with
  | nil => intro S c h; exact h
  | cons p Δ ih =>
    intro S c h
    exact ih _ _ (mem_keysOf_addScore_mono _ _ _ _ h)

theorem mem_keysOf_accum_of_delta (Δ : List (String × ℚ)) :
    ∀ (S : List (String × ℚ)) (c : String), c ∈ keysOf Δ → c ∈ keysOf (accum S Δ) := by
  induction Δ with
  | nil => simp [keysOf]
  | cons p Δ ih =>
    intro S c hc
    simp only [keysOf, List.map_cons, List.mem_cons] at hc
    rcases hc with h | h
    · exact mem_keysOf_accum_mono Δ _ _ (h ▸ mem_keysOf_addScore_self S p.1 p.2)
    · exact ih _ _ h

theorem keysOf_accum_of_subset (Δ : List (String × ℚ)) :
    ∀ S : List (String × ℚ), (∀ c, c ∈ keysOf Δ → c ∈ keysOf S) →
    keysOf (accum S Δ) = keysOf S := by
  induction Δ with
  | nil => intro S _; rfl
  | cons p Δ ih =>
    intro S h
    have hp : p.1 ∈ keysOf S := h p.1 (by simp [keysOf])
    have hkeys : keysOf (addScore S p.1 p.2) = keysOf S := by
      rw [keysOf_addScore, if_pos hp]
    have hsub : ∀ c, c ∈ keysOf Δ → c ∈ keysOf (addScore S p.1 p.2) := by
      intro c hc
      rw [hkeys]
      exact h c (by simp [keysOf] at hc ⊢; exact Or.inr hc)
    show keysOf (accum (addScore S p.1 p.2) Δ) = keysOf S
    rw [ih _ hsub, hkeys]

theorem keysOf_accum_nodup (Δ : List (String × ℚ)) :
    ∀ S : List (String × ℚ), (keysOf S).Nodup → (keysOf (accum S Δ)).Nodup := by
  induction Δ with
  | nil => intro S h; exact h
  | cons p Δ ih =>
    intro S h
    show ((keysOf (accum (addScore S p.1 p.2) Δ))).Nodup
    apply ih
    rw [keysOf_addScore]
    by_cases hm : p.1 ∈ keysOf S
    · simpa [hm] using h
    · simp only [if_neg hm]
      rw [List.nodup_append]
      refine ⟨h, List.nodup_singleton _, ?_⟩
      intro a ha hb
      simp only [List.mem_singleton] at hb
      subst hb
      exact hm ha

theorem scoreOf_eq_zero_of_not_mem (L : List (String × ℚ)) (c : String)
    (h : c ∉ keysOf L) : scoreOf L c = 0 := by
  induction L with
  | nil => rfl
  | cons p rest ih =>
    simp only [keysOf, List.map_cons, List.mem_cons] at h
    push_neg at h
    simp only [scoreOf]
    rw [if_neg (fun he => h.1 he.symm)]
    exact ih (by simpa [keysOf] using h.2)

theorem assocExt : ∀ L₁ L₂ : List (String × ℚ), keysOf L₁ = keysOf L₂ →
    (keysOf L₁).Nodup → (∀ c, scoreOf L₁ c = scoreOf L₂ c) → L₁ = L₂ := by
  intro L₁
  induction L₁ with
  | nil =>
    intro L₂ hk _ _
    cases L₂ with
    | nil => rfl
    | cons q rest₂ => simp [keysOf] at hk
  | cons p rest ih =>
    intro L₂ hk hnd hs
    cases L₂ with
    | nil => simp [keysOf] at hk
    | cons q rest₂ =>
      have hk2 : p.1 :: keysOf rest = q.1 :: keysOf rest₂ := hk
      have h1 : p.1 = q.1 := (List.cons_eq_cons.mp hk2).1
      have h2 : keysOf rest = keysOf rest₂ := (List.cons_eq_cons.mp hk2).2
      have hnd2 : (p.1 :: keysOf rest).Nodup := hnd
      have hp1 : p.1 ∉ keysOf rest := (List.nodup_cons.mp hnd2).1
      have hndt : (keysOf rest).Nodup := (List.nodup_cons.mp hnd2).2
      have hv : p.2 = q.2 := by
        have h3 := hs p.1
        simp only [scoreOf] at h3
        rw [if_pos h1.symm] at h3
        simpa using h3
      have hs2 : ∀ c, scoreOf rest c = scoreOf rest₂ c := by
        intro c
        by_cases hc : c = p.1
        · rw [scoreOf_eq_zero_of_not_mem rest c (hc ▸ hp1),
            scoreOf_eq_zero_of_not_mem rest₂ c (by rw [← h2]; exact hc ▸ hp1)]
        · have h3 := hs c
          simp only [scoreOf] at h3
          have hpc : ¬ p.1 = c := fun he => hc he.symm
          have hqc : ¬ q.1 = c := fun he => hpc (h1.trans he)
          rw [if_neg hpc, if_neg hqc] at h3
          exact h3
      have htail := ih rest₂ h2 hndt hs2
      obtain ⟨pa, pb⟩ := p
      obtain ⟨qa, qb⟩ := q
      simp only at h1 hv
      rw [htail, h1, hv]

theorem keysOf_scaleScores (a : ℚ) (S : List (String × ℚ)) :
    keysOf (scaleScores a S) = keysOf S := by
  induction S with
  | nil => rfl
  | cons p rest ih =>
    simp only [scaleScores, keysOf, List.map_cons] at *
    rw [ih]

theorem scoreOf_scaleScores (a : ℚ) (S : List (String × ℚ)) (c : String) :
    scoreOf (scaleScores a S) c = a * scoreOf S c := by
  induction S with
  | nil => simp [scaleScores, scoreOf]
  | cons p rest ih =>
    simp only [scaleScores, List.map_cons, scoreOf]
    by_cases h : p.1 = c
    · rw [if_pos h, if_pos h]
    · rw [if_neg h, if_neg h]
      simpa [scaleScores] using ih

theorem accum_self_twice (Δ : List (String × ℚ)) :
    accum (accum [] Δ) Δ = scaleScores 2 (accum [] Δ) := by
  apply assocExt
  · rw [keysOf_scaleScores]
    exact keysOf_accum_of_subset Δ _ (fun c hc => mem_keysOf_accum_of_delta Δ [] c hc)
  · exact keysOf_accum_nodup Δ _ (keysOf_accum_nodup Δ [] (by simp [keysOf]))
  · intro c
    rw [scoreOf_accum, scoreOf_scaleScores, scoreOf_accum]
    have h0 : scoreOf ([] : List (String × ℚ)) c = 0 := rfl
    rw [h0]
    ring

theorem filter_scaleScores (b : String) (T : List (String × ℚ)) :
    (scaleScores 2 T).filter (fun q => ¬ q.1 = b)
      = scaleScores 2 (T.filter (fun q => ¬ q.1 = b)) := by
  show (T.map fun p => (p.1, 2 * p.2)).filter (fun q => ¬ q.1 = b)
    = scaleScores 2 (T.filter (fun q => ¬ q.1 = b))
  rw [List.filter_map]
  rfl

theorem popBase_pair (b : String) (S : List (String × ℚ)) :
    popBase [b, b] S = popBase [b] S := by
  simp only [popBase, List.foldl_cons, List.foldl_nil]
  rw [List.filter_filter]
  congr 1
  funext p
  exact Bool.and_self _

theorem popBase_scale (bs : List String) :
    ∀ S : List (String × ℚ), popBase bs (scaleScores 2 S) = scaleScores 2 (popBase bs S) := by
  induction bs with
  | nil => intro S; rfl
  | cons b bs ih =>
    intro S
    show popBase bs ((scaleScores 2 S).filter fun q => ¬ q.1 = b)
      = scaleScores 2 (popBase bs (S.filter fun q => ¬ q.1 = b))
    rw [filter_scaleScores, ih]

theorem insertRanked_scale (q : String × ℚ) (l : List (String × ℚ)) :
    insertRanked (q.1, 2 * q.2) (scaleScores 2 l) = scaleScores 2 (insertRanked q l) := by
  induction l with
  | nil => rfl
  | cons y ys ih =>
    simp only [scaleScores, List.map_cons, insertRanked]
    by_cases h : y.2 ≤ q.2
    · rw [if_pos (show (2:ℚ) * y.2 ≤ 2 * q.2 by linarith), if_pos h]
      rfl
    · rw [if_neg (show ¬ ((2:ℚ) * y.2 ≤ 2 * q.2) from fun hcon => h (by linarith)),
        if_neg h]
      simp only [List.map_cons]
      rw [show insertRanked (q.1, 2 * q.2) (ys.map fun p => (p.1, 2 * p.2))
          = scaleScores 2 (insertRanked q ys) from ih]
      rfl

theorem sortRanked_scale (S : List (String × ℚ)) :
    sortRanked (scaleScores 2 S) = scaleScores 2 (sortRanked S) := by
  induction S with
  | nil => rfl
  | cons p rest ih =>
    show insertRanked (p.1, 2 * p.2) (sortRanked (scaleScores 2 rest))
      = scaleScores 2 (insertRanked p (sortRanked rest))
    rw [ih]
    exact insertRanked_scale p (sortRanked rest)

theorem pySlice_map {α β : Type} (f : α → β) (k : ℤ) (l : List α) :
    pySlice k (l.map f) = (pySlice k l).map f := by
  unfold pySlice
  rw [List.length_map]
  by_cases h : 0 ≤ k
  · rw [if_pos h, if_pos h, List.map_take]
  · rw [if_neg h, if_neg h, List.map_take]

theorem mapFst_scaleScores (S : List (String × ℚ)) :
    (scaleScores 2 S).map Prod.fst = S.map Prod.fst := by
  induction S with
  | nil => rfl
  | cons p rest ih =>
    simp only [scaleScores, List.map_cons] at *
    rw [ih]

/-- Claim C9: the scorer does not deduplicate its base list — scoring with
base `[x, x]` doubles every candidate's accumulated score relative to base
`[x]` and returns exactly the same result list. -/
theorem claim9_duplicate_base (G : Graph) (x goal : String) (top_k min_cooc : ℤ) :
    suggest_neighbors_scored G [x, x] goal top_k min_cooc
      = suggest_neighbors_scored G [x] goal top_k min_cooc
    ∧ ∀ c, scoreOf (scoresFor G ([x, x].map normalize_ing) goal min_cooc) c
        = 2 * scoreOf (scoresFor G ([x].map normalize_ing) goal min_cooc) c := by
  have hL : scoresFor G ([x, x].map normalize_ing) goal min_cooc
      = scaleScores 2 (scoresFor G ([x].map normalize_ing) goal min_cooc) := by
    show accum (accum [] (contribList G goal min_cooc (normalize_ing x)))
        (contribList G goal min_cooc (normalize_ing x))
      = scaleScores 2 (accum [] (contribList G goal min_cooc (normalize_ing x)))
    exact accum_self_twice _
  constructor
  · simp only [suggest_neighbors_scored]
    rw [hL]
    rw [show ([x, x].map normalize_ing) = [normalize_ing x, normalize_ing x] from rfl,
      show ([x].map normalize_ing) = [normalize_ing x] from rfl]
    rw [popBase_pair, popBase_scale, sortRanked_scale]
    rw [show scaleScores 2 (sortRanked (popBase [normalize_ing x]
        (scoresFor G [normalize_ing x] goal min_cooc)))
      = (sortRanked (popBase [normalize_ing x]
        (scoresFor G [normalize_ing x] goal min_cooc))).map (fun p => (p.1, 2 * p.2))
      from rfl]
    rw [pySlice_map, List.map_map]
    rfl
  · intro c
    rw [hL, scoreOf_scaleScores]

/-! ## Claim C10 (scorer observes only adjacency, cooc and averages) -/

theorem keysOf_of_view (G₁ G₂ : Graph) (h : nodeView G₁ = nodeView G₂) :
    keysOf G₁.nodes = keysOf G₂.nodes := by
  have h2 := congrArg (List.map Prod.fst) h
  simp only [nodeView, List.map_map] at h2
  exact h2

theorem lookupNode_avg_view : ∀ ns₁ ns₂ : List (String × NodeData),
    ns₁.map (fun p => (p.1, (p.2.avg_rating, p.2.avg_calories)))
      = ns₂.map (fun p => (p.1, (p.2.avg_rating, p.2.avg_calories))) →
    ∀ n, (lookupNode ns₁ n).map (fun d => (d.avg_rating, d.avg_calories))
        = (lookupNode ns₂ n).map (fun d => (d.avg_rating, d.avg_calories)) := by
  intro ns₁
  induction ns₁ with
  | nil =>
    intro ns₂ h n
    cases ns₂ with
    | nil => rfl
    | cons q rest₂ => simp at h
  | cons p rest ih =>
    intro ns₂ h n
    cases ns₂ with
    | nil => simp at h
    | cons q rest₂ =>
      simp only [List.map_cons, List.cons.injEq] at h
      obtain ⟨hhead, htail⟩ := h
      injection hhead with h1 h2
      simp only [lookupNode]
      by_cases hn2 : p.1 = n
      · rw [if_pos hn2, if_pos (show q.1 = n by rw [← h1]; exact hn2)]
        simpa using h2
      · rw [if_neg hn2, if_neg (show ¬ q.1 = n by rw [← h1]; exact hn2)]
        exact ih rest₂ htail n

theorem nodeAvg_view (G₁ G₂ : Graph) (hn : nodeView G₁ = nodeView G₂) :
    (∀ n, nodeAvgRating G₁ n = nodeAvgRating G₂ n)
    ∧ (∀ n, nodeAvgCalories G₁ n = nodeAvgCalories G₂ n) := by
  have hview : G₁.nodes.map (fun p => (p.1, (p.2.avg_rating, p.2.avg_calories)))
      = G₂.nodes.map (fun p => (p.1, (p.2.avg_rating, p.2.avg_calories))) := hn
  constructor
  · intro n
    have h3 := lookupNode_avg_view G₁.nodes G₂.nodes hview n
    unfold nodeAvgRating
    rw [show (lookupNode G₁.nodes n).map NodeData.avg_rating
        = ((lookupNode G₁.nodes n).map (fun d => (d.avg_rating, d.avg_calories))).map Prod.fst
        from by cases lookupNode G₁.nodes n <;> rfl]
    rw [show (lookupNode G₂.nodes n).map NodeData.avg_rating
        = ((lookupNode G₂.nodes n).map (fun d => (d.avg_rating, d.avg_calories))).map Prod.fst
        from by cases lookupNode G₂.nodes n <;> rfl]
    rw [h3]
  · intro n
    have h3 := lookupNode_avg_view G₁.nodes G₂.nodes hview n
    unfold nodeAvgCalories
    rw [show (lookupNode G₁.nodes n).map NodeData.avg_calories
        = ((lookupNode G₁.nodes n).map (fun d => (d.avg_rating, d.avg_calories))).map Prod.snd
        from by cases lookupNode G₁.nodes n <;> rfl]
    rw [show (lookupNode G₂.nodes n).map NodeData.avg_calories
        = ((lookupNode G₂.nodes n).map (fun d => (d.avg_rating, d.avg_calories))).map Prod.snd
        from by cases lookupNode G₂.nodes n <;> rfl]
    rw [h3]

theorem filterMap_adj_view (x : String) :
    ∀ es₁ es₂ : List ((String × String) × EdgeData),
    es₁.map (fun p => (p.1, p.2.cooc)) = es₂.map (fun p => (p.1, p.2.cooc)) →
    (es₁.filterMap (fun pe =>
        if pe.1.1 = x then some (pe.1.2, pe.2)
        else if pe.1.2 = x then some (pe.1.1, pe.2)
        else none)).map (fun ne => (ne.1, ne.2.cooc))
      = (es₂.filterMap (fun pe =>
        if pe.1.1 = x then some (pe.1.2, pe.2)
        else if pe.1.2 = x then some (pe.1.1, pe.2)
        else none)).map (fun ne => (ne.1, ne.2.cooc)) := by
  intro es₁
  induction es₁ with
  | nil =>
    intro es₂ h
    cases es₂ with
    | nil => rfl
    | cons qe rest₂ => simp at h
  | cons pe rest ih =>
    intro es₂ h
    cases es₂ with
    | nil => simp at h
    | cons qe rest₂ =>
      simp only [List.map_cons, List.cons.injEq] at h
      obtain ⟨hhead, htail⟩ := h
      injection hhead with h1 h2
      simp only [List.filterMap_cons]
      by_cases hx1 : pe.1.1 = x
      · rw [if_pos hx1, if_pos (show qe.1.1 = x by rw [← h1]; exact hx1)]
        simp only [List.map_cons]
        rw [ih rest₂ htail]
        congr 1
        show (pe.1.2, pe.2.cooc) = (qe.1.2, qe.2.cooc)
        rw [h1, h2]
      · rw [if_neg hx1, if_neg (show ¬ qe.1.1 = x by rw [← h1]; exact hx1)]
        by_cases hx2 : pe.1.2 = x
        · rw [if_pos hx2, if_pos (show qe.1.2 = x by rw [← h1]; exact hx2)]
          simp only [List.map_cons]
          rw [ih rest₂ htail]
          congr 1
          show (pe.1.1, pe.2.cooc) = (qe.1.1, qe.2.cooc)
          rw [h1, h2]
        · rw [if_neg hx2, if_neg (show ¬ qe.1.2 = x by rw [← h1]; exact hx2)]
          exact ih rest₂ htail

theorem filterMap_score_view (goal : String) (m : ℤ) (f₁ f₂ g₁ g₂ : String → ℚ)
    (havg : ∀ n, f₁ n = f₂ n) (hcal : ∀ n, g₁ n = g₂ n) :
    ∀ N₁ N₂ : List (String × EdgeData),
    N₁.map (fun ne => (ne.1, ne.2.cooc)) = N₂.map (fun ne => (ne.1, ne.2.cooc)) →
    N₁.filterMap (fun ne => if (ne.2.cooc : ℤ) < m then none
        else some (ne.1, goalScore goal ne.2.cooc (f₁ ne.1) (g₁ ne.1)))
      = N₂.filterMap (fun ne => if (ne.2.cooc : ℤ) < m then none
        else some (ne.1, goalScore goal ne.2.cooc (f₂ ne.1) (g₂ ne.1))) := by
  intro N₁
  induction N₁ with
  | nil =>
    intro N₂ h
    cases N₂ with
    | nil => rfl
    | cons me rest₂ => simp at h
  | cons ne rest ih =>
    intro N₂ h
    cases N₂ with
    | nil => simp at h
    | cons me rest₂ =>
      simp only [List.map_cons, List.cons.injEq] at h
      obtain ⟨hhead, htail⟩ := h
      injection hhead with h1 h2
      by_cases hc : (ne.2.cooc : ℤ) < m
      · have hc2 : (me.2.cooc : ℤ) < m := by rw [← h2]; exact hc
        simp only [List.filterMap_cons, if_pos hc, if_pos hc2]
        exact ih rest₂ htail
      · have hc2 : ¬ (me.2.cooc : ℤ) < m := by rw [← h2]; exact hc
        simp only [List.filterMap_cons, if_neg hc, if_neg hc2]
        rw [ih rest₂ htail]
        congr 1
        rw [h1, h2, havg, hcal]

theorem contribList_view (G₁ G₂ : Graph) (hn : nodeView G₁ = nodeView G₂)
    (he : edgeView G₁ = edgeView G₂) (goal : String) (m : ℤ) (x : String) :
    contribList G₁ goal m x = contribList G₂ goal m x := by
  have hkeys := keysOf_of_view G₁ G₂ hn
  have hHas : hasNode G₁ x ↔ hasNode G₂ x := by
    unfold hasNode
    rw [hkeys]
  unfold contribList
  by_cases hx : hasNode G₁ x
  · rw [if_pos hx, if_pos (hHas.mp hx)]
    have hneigh : (neighborsOf G₁ x).map (fun ne => (ne.1, ne.2.cooc))
        = (neighborsOf G₂ x).map (fun ne => (ne.1, ne.2.cooc)) := by
      unfold neighborsOf
      exact filterMap_adj_view x G₁.edges G₂.edges he
    exact filterMap_score_view goal m _ _ _ _
      (nodeAvg_view G₁ G₂ hn).1 (nodeAvg_view G₁ G₂ hn).2 _ _ hneigh
  · rw [if_neg hx, if_neg (fun hcon => hx (hHas.mpr hcon))]

/-- Claim C10: the scorer's output depends only on the graph's adjacency
structure, edge `cooc` values, and node `avg_rating` / `avg_calories`
fields — two graphs agreeing on those (while free to differ in node
`count` and all `rating_sum` / `cal_sum` fields) yield identical result
lists for every base list, goal, `top_k` and `min_cooc`. -/
theorem claim10_view_independence (G₁ G₂ : Graph)
    (hn : nodeView G₁ = nodeView G₂) (he : edgeView G₁ = edgeView G₂)
    (base : List String) (goal : String) (top_k min_cooc : ℤ) :
    suggest_neighbors_scored G₁ base goal top_k min_cooc
      = suggest_neighbors_scored G₂ base goal top_k min_cooc := by
  simp only [suggest_neighbors_scored]
  have hs : scoresFor G₁ (base.map normalize_ing) goal min_cooc
      = scoresFor G₂ (base.map normalize_ing) goal min_cooc := by
    unfold scoresFor
    exact foldl_fun_congr _ _
      (fun S x => by rw [contribList_view G₁ G₂ hn he goal min_cooc x]) _ _
  rw [hs]

/-- Witness for claim C10: two concrete graphs with identical views but
different `count` and sum fields yield the same suggestions. -/
theorem claim10_witness :
    nodeView viewGraphA = nodeView viewGraphB
    ∧ edgeView viewGraphA = edgeView viewGraphB
    ∧ ¬ viewGraphA = viewGraphB
    ∧ suggest_neighbors_scored viewGraphA ["a"] "high_rating" 5 1
      = suggest_neighbors_scored viewGraphB ["a"] "high_rating" 5 1 :=
  ⟨by decide, by decide, by decide,
    claim10_view_independence viewGraphA viewGraphB (by decide) (by decide)
      ["a"] "high_rating" 5 1⟩
